import Mathlib

/-!
Verification of the FROST threshold-Schnorr signing engine of a cross-chain
validator node.  The definitions below are a shallow embedding of the Rust
sources (`engine/src/multisig/client/signing/frost.rs`, the older revision
`engine/src/signing/client/client_inner/frost.rs`, the state-chain observer
`engine/src/state_chain/sc_observer.rs`) together with the cryptographic
primitives they rely on (secp256k1 arithmetic, SHA-256, Keccak-256), and the
keygen blame-resolution / threshold rules of the `cf-vaults` pallet.
Machine integers are modelled as `Nat` with explicit reduction, byte strings
as `List Nat`, curve scalars as `ZMod secpN`.
-/

set_option maxRecDepth 10000
set_option maxHeartbeats 4000000

/-- Byte strings are lists of naturals; every producer below keeps entries below 256. -/
abbrev Bytes := List Nat

/-- Big-endian encoding of `v` in exactly `w` bytes (`usize::to_be_bytes` has `w = 8`). -/
def beBytes (w v : Nat) : Bytes :=
  (List.range w).map (fun i => v / 256 ^ (w - 1 - i) % 256)

/-- Interpret a byte string as a big-endian natural number. -/
def natOfBytes (bs : Bytes) : Nat :=
  bs.foldl (fun acc b => acc * 256 + b) 0

/-! ## SHA-256 (the `sha2` crate used by `gen_rho_i`) -/

/-- The 64 SHA-256 round constants, packed big-endian into one literal. -/
def sha256K : List Nat :=
  (List.range 64).map (fun i =>
    0x428a2f9871374491b5c0fbcfe9b5dba53956c25b59f111f1923f82a4ab1c5ed5d807aa9812835b01243185be550c7dc372be5d7480deb1fe9bdc06a7c19bf174e49b69c1efbe47860fc19dc6240ca1cc2de92c6f4a7484aa5cb0a9dc76f988da983e5152a831c66db00327c8bf597fc7c6e00bf3d5a7914706ca63511429296727b70a852e1b21384d2c6dfc53380d13650a7354766a0abb81c2c92e92722c85a2bfe8a1a81a664bc24b8b70c76c51a3d192e819d6990624f40e3585106aa07019a4c1161e376c082748774c34b0bcb5391c0cb34ed8aa4a5b9cca4f682e6ff3748f82ee78a5636f84c878148cc7020890befffaa4506cebbef9a3f7c67178f2
      / 2 ^ (32 * (63 - i)) % 2 ^ 32)

def rotr32 (x n : Nat) : Nat :=
  (x / 2 ^ n + x % 2 ^ n * 2 ^ (32 - n)) % 2 ^ 32

def shaS0 (x : Nat) : Nat := rotr32 x 7 ^^^ rotr32 x 18 ^^^ x / 2 ^ 3
def shaS1 (x : Nat) : Nat := rotr32 x 17 ^^^ rotr32 x 19 ^^^ x / 2 ^ 10
def shaB0 (x : Nat) : Nat := rotr32 x 2 ^^^ rotr32 x 13 ^^^ rotr32 x 22
def shaB1 (x : Nat) : Nat := rotr32 x 6 ^^^ rotr32 x 11 ^^^ rotr32 x 25

/-- Extend a (reversed, newest-first) message schedule by `fuel` further words. -/
def shaExtend : Nat → List Nat → List Nat
  | 0, wrev => wrev
  | fuel + 1, wrev =>
      let w16 := wrev.getD 15 0
      let w15 := wrev.getD 14 0
      let w7 := wrev.getD 6 0
      let w2 := wrev.getD 1 0
      shaExtend fuel (((w16 + shaS0 w15 + w7 + shaS1 w2) % 2 ^ 32) :: wrev)

structure ShaState where
  a : Nat
  b : Nat
  c : Nat
  d : Nat
  e : Nat
  f : Nat
  g : Nat
  hh : Nat

def shaRound (st : ShaState) (kw : Nat × Nat) : ShaState :=
  let t1 := (st.hh + shaB1 st.e + ((st.e &&& st.f) ^^^ ((2 ^ 32 - 1 - st.e) &&& st.g))
              + kw.1 + kw.2) % 2 ^ 32
  let t2 := (shaB0 st.a + ((st.a &&& st.b) ^^^ (st.a &&& st.c) ^^^ (st.b &&& st.c))) % 2 ^ 32
  ⟨(t1 + t2) % 2 ^ 32, st.a, st.b, st.c, (st.d + t1) % 2 ^ 32, st.e, st.f, st.g⟩

/-- One SHA-256 compression step: digest (8 words) updated with a 64-byte block. -/
def shaCompress (hs : List Nat) (block : Bytes) : List Nat :=
  let w0 := (List.range 16).map (fun i => natOfBytes (block.drop (4 * i) |>.take 4))
  let w := (shaExtend 48 w0.reverse).reverse
  let st0 : ShaState := ⟨hs.getD 0 0, hs.getD 1 0, hs.getD 2 0, hs.getD 3 0,
                         hs.getD 4 0, hs.getD 5 0, hs.getD 6 0, hs.getD 7 0⟩
  let st := (sha256K.zip w).foldl shaRound st0
  [(hs.getD 0 0 + st.a) % 2 ^ 32, (hs.getD 1 0 + st.b) % 2 ^ 32,
   (hs.getD 2 0 + st.c) % 2 ^ 32, (hs.getD 3 0 + st.d) % 2 ^ 32,
   (hs.getD 4 0 + st.e) % 2 ^ 32, (hs.getD 5 0 + st.f) % 2 ^ 32,
   (hs.getD 6 0 + st.g) % 2 ^ 32, (hs.getD 7 0 + st.hh) % 2 ^ 32]

/-- Split a byte string into blocks of `sz` bytes (`fuel` bounds the recursion). -/
def chunks (sz : Nat) : Nat → Bytes → List Bytes
  | 0, _ => []
  | _, [] => []
  | fuel + 1, bs => bs.take sz :: chunks sz fuel (bs.drop sz)

def sha256 (msg : Bytes) : Bytes :=
  let padded := msg ++ [0x80] ++ List.replicate ((119 - msg.length % 64) % 64) 0
                ++ beBytes 8 (msg.length * 8)
  let hs := (chunks 64 (padded.length) padded).foldl shaCompress
    ((List.range 8).map (fun i =>
      0x6a09e667bb67ae853c6ef372a54ff53a510e527f9b05688c1f83d9ab5be0cd19
        / 2 ^ (32 * (7 - i)) % 2 ^ 32))
  hs.flatMap (beBytes 4)

/-! ## Keccak-256 (Ethereum hashing used by the settlement-chain challenge) -/

/-- The 24 Keccak round constants, packed big-endian into one literal. -/
def keccakRC : List Nat :=
  (List.range 24).map (fun i =>
    0x10000000000008082800000000000808a8000000080008000000000000000808b000000008000000180000000800080818000000000008009000000000000008a00000000000000880000000080008009000000008000000a000000008000808b800000000000008b8000000000008089800000000000800380000000000080028000000000000080000000000000800a800000008000000a8000000080008081800000000000808000000000800000018000000080008008
      / 2 ^ (64 * (23 - i)) % 2 ^ 64)

/-- Rotation offsets, indexed by lane `x + 5*y` (packed base-64 into one literal). -/
def keccakRot : List Nat :=
  (List.range 25).map (fun i =>
    688427879441314677701183511256848979975694 / 64 ^ (24 - i) % 64)

def rotl64 (x n : Nat) : Nat :=
  (x % 2 ^ (64 - n % 64) * 2 ^ (n % 64) + x / 2 ^ (64 - n % 64)) % 2 ^ 64

/-- One Keccak-f[1600] round; the state is 25 lanes, lane `(x,y)` at index `x + 5*y`. -/
def keccakRound (s : List Nat) (rc : Nat) : List Nat :=
  let c := (List.range 5).map (fun x =>
    s.getD x 0 ^^^ s.getD (x + 5) 0 ^^^ s.getD (x + 10) 0 ^^^ s.getD (x + 15) 0 ^^^ s.getD (x + 20) 0)
  let d := (List.range 5).map (fun x => c.getD ((x + 4) % 5) 0 ^^^ rotl64 (c.getD ((x + 1) % 5) 0) 1)
  let a1 := (List.range 25).map (fun t => s.getD t 0 ^^^ d.getD (t % 5) 0)
  let b := (List.range 25).map (fun t =>
    let j := t % 5
    let k := t / 5
    let src := (3 * k + j) % 5 + 5 * j
    rotl64 (a1.getD src 0) (keccakRot.getD src 0))
  let a2 := (List.range 25).map (fun t =>
    let x := t % 5
    let y := t / 5
    b.getD t 0 ^^^ ((2 ^ 64 - 1 - b.getD ((x + 1) % 5 + 5 * y) 0) &&& b.getD ((x + 2) % 5 + 5 * y) 0))
  (((a2.getD 0 0) ^^^ rc) :: a2.tail)

def keccakF (s : List Nat) : List Nat := keccakRC.foldl keccakRound s

/-- Absorb one 136-byte block (17 little-endian 64-bit lanes) into the state. -/
def keccakAbsorb (s : List Nat) (block : Bytes) : List Nat :=
  let lanes := (List.range 17).map (fun i => natOfBytes ((block.drop (8 * i)).take 8).reverse)
  keccakF ((List.range 25).map (fun i => s.getD i 0 ^^^ lanes.getD i 0))

def keccakPad (len : Nat) : Bytes :=
  if 136 - len % 136 = 1 then [0x81]
  else [0x01] ++ List.replicate (136 - len % 136 - 2) 0 ++ [0x80]

def keccak256 (msg : Bytes) : Bytes :=
  let p := msg ++ keccakPad msg.length
  let s := (chunks 136 p.length p).foldl keccakAbsorb (List.replicate 25 0)
  ((List.range 4).flatMap (fun i => (beBytes 8 (s.getD i 0)).reverse))

/-! ## secp256k1

Modelled from the spec: the engine's `multisig::crypto` module (scalar and point
arithmetic over secp256k1 with base point G, scalar/point encodings) is not in
the sources; §4.1 of the specification fixes the curve, the primitives and the
encodings, and they are implemented here directly from the curve equations. -/

def secpP : Nat := 0xFFFFFFFFFFFFFFFFFFFFFFFFFFFFFFFFFFFFFFFFFFFFFFFFFFFFFFFEFFFFFC2F

def secpN : Nat := 0xFFFFFFFFFFFFFFFFFFFFFFFFFFFFFFFEBAAEDCE6AF48A03BBFD25E8CD0364141

/-- Binary modular exponentiation; `fuel` bounds the number of exponent bits. -/
def powMod : Nat → Nat → Nat → Nat → Nat
  | 0, _, _, m => 1 % m
  | fuel + 1, b, e, m =>
      if e = 0 then 1 % m
      else
        let r := powMod fuel (b * b % m) (e / 2) m
        if e % 2 = 1 then r * b % m else r

/-- Inverse in the base field, via Fermat. -/
def modInv (a : Nat) : Nat := powMod 256 a (secpP - 2) secpP

/-- Affine point: `none` is the point at infinity. -/
abbrev Point := Option (Nat × Nat)

/-- Subtraction in the base field (operands need not be reduced). -/
def psub (a b : Nat) : Nat := (a % secpP + (secpP - b % secpP)) % secpP

def pointAdd (P Q : Point) : Point :=
  match P, Q with
  | none, q => q
  | p, none => p
  | some (x1, y1), some (x2, y2) =>
      if x1 % secpP = x2 % secpP then
        if (y1 + y2) % secpP = 0 then none
        else
          let l := 3 * x1 * x1 % secpP * modInv (2 * y1 % secpP) % secpP
          let x3 := psub (l * l) (x1 + x2)
          some (x3, psub (l * psub x1 x3) y1)
      else
        let l := psub y2 y1 * modInv (psub x2 x1) % secpP
        let x3 := psub (l * l) (x1 + x2)
        some (x3, psub (l * psub x1 x3) y1)

def pointNeg : Point → Point
  | none => none
  | some (x, y) => some (x, (secpP - y % secpP) % secpP)

/-- Jacobian coordinates `(X, Y, Z)` with `x = X/Z²`, `y = Y/Z³`; `Z = 0` is infinity.
Used internally by `pointMul` so that double-and-add needs a single field inversion. -/
def jacDouble : Nat × Nat × Nat → Nat × Nat × Nat
  | (jx, jy, jz) =>
      if jy % secpP = 0 ∨ jz % secpP = 0 then (1, 1, 0)
      else
        let s := 4 * jx % secpP * jy % secpP * jy % secpP
        let m := 3 * jx % secpP * jx % secpP
        let x3 := psub (m * m) (2 * s)
        let y4 := jy * jy % secpP * jy % secpP * jy % secpP
        (x3, psub (m * psub s x3) (8 * y4), 2 * jy % secpP * jz % secpP)

def jacAdd (P Q : Nat × Nat × Nat) : Nat × Nat × Nat :=
  let (x1, y1, z1) := P
  let (x2, y2, z2) := Q
  if z1 % secpP = 0 then Q
  else if z2 % secpP = 0 then P
  else
    let z1s := z1 * z1 % secpP
    let z2s := z2 * z2 % secpP
    let u1 := x1 * z2s % secpP
    let u2 := x2 * z1s % secpP
    let s1 := y1 * z2s % secpP * z2 % secpP
    let s2 := y2 * z1s % secpP * z1 % secpP
    if u1 = u2 then
      if s1 = s2 then jacDouble P else (1, 1, 0)
    else
      let h := psub u2 u1
      let r := psub s2 s1
      let hs := h * h % secpP
      let hc := hs * h % secpP
      let x3 := psub (r * r) (hc + 2 * (u1 * hs % secpP))
      (x3, psub (r * psub (u1 * hs) x3) (s1 * hc % secpP), h * z1 % secpP * z2 % secpP)

def jacOfPoint : Point → Nat × Nat × Nat
  | none => (1, 1, 0)
  | some (x, y) => (x % secpP, y % secpP, 1)

def pointOfJac : Nat × Nat × Nat → Point
  | (jx, jy, jz) =>
      if jz % secpP = 0 then none
      else
        let zi := modInv (jz % secpP)
        let zi2 := zi * zi % secpP
        some (jx * zi2 % secpP, jy * zi2 % secpP * zi % secpP)

def pointMulAux : Nat → Nat → Nat × Nat × Nat → Nat × Nat × Nat → Nat × Nat × Nat
  | 0, _, _, acc => acc
  | fuel + 1, k, p, acc =>
      if k = 0 then acc
      else pointMulAux fuel (k / 2) (jacDouble p) (if k % 2 = 1 then jacAdd acc p else acc)

/-- Scalar multiple `k·P` (double-and-add, 256 bits). -/
def pointMul (k : Nat) (p : Point) : Point :=
  pointOfJac (pointMulAux 256 k (jacOfPoint p) (1, 1, 0))

def secpG : Point :=
  some (0x79BE667EF9DCBBAC55A06295CE870B07029BFCDB2DCE28D959F2815B16F81798,
        0x483ADA7726A3C4655DA4FBFC0E1108A8FD17B448A68554199C47D08FFB10D4B8)

/-- Scalars are residues modulo the group order. -/
abbrev Scalar := ZMod secpN

/-- `Scalar::from_bytes`: 32 bytes, big-endian, reduced modulo the order. -/
def scalarFromBytes (bs : Bytes) : Scalar := (natOfBytes bs : Scalar)

/-- `Scalar::as_bytes`: canonical 32-byte big-endian encoding. -/
def scalarToBytes (s : Scalar) : Bytes := beBytes 32 s.val

/-- `Point::as_bytes` / `get_element().serialize()`: 33-byte compressed SEC1 form. -/
def compress : Point → Bytes
  | none => List.replicate 33 0
  | some (x, y) => (2 + y % 2) :: beBytes 32 x

/-- Modelled from the spec: `eth::utils::pubkey_to_eth_addr` is not in the sources;
§4.1 defines `eth_addr(P)` as the last 20 bytes of `keccak256` of the uncompressed
encoding of `P` without its leading `0x04` byte. -/
def pubkey_to_eth_addr : Point → Bytes
  | none => List.replicate 20 0
  | some (x, y) => (keccak256 (beBytes 32 x ++ beBytes 32 y)).drop 12

/-- Modelled from the spec: `AggKey::message_challenge` (crate `cf-chains`) is not in
the sources; §4.1 defines the settlement-chain challenge as
`e = H(Y_x ‖ parity(Y) ‖ m ‖ eth_addr(R))` reduced modulo the curve order, with `H`
the settlement chain's Keccak-256 and `parity(Y)` the parity (0 or 1) of `Y_y`.
Argument order follows the source `build_challenge(pubkey, nonce_commitment, message)`. -/
def build_challenge (pubkey nonce_commitment : Point) (message : Bytes) : Scalar :=
  match pubkey with
  | none => 0
  | some (x, y) =>
      scalarFromBytes (keccak256 (beBytes 32 x ++ [y % 2] ++ message
        ++ pubkey_to_eth_addr nonce_commitment))

/-- `generate_contract_schnorr_sig` (multisig `frost.rs`, lines 226-240):
`σ = nonce − private_key · e` with `e` the settlement-chain challenge. -/
def generate_contract_schnorr_sig (private_key : Scalar) (pubkey : Point)
    (nonce_commitment : Point) (nonce : Scalar) (message : Bytes) : Scalar :=
  nonce - private_key * build_challenge pubkey nonce_commitment message

/-- `SECRET_KEY` of the fixed test vector. -/
def SECRET_KEY : Nat := 0xfbcb47bc85b881e0dfb31c872d4e06848f80530ccbd18fc016a27c4a744d0eba

/-- `NONCE_KEY` of the fixed test vector. -/
def NONCE_KEY : Nat := 0xd51e13c68bf56155a83e50fd9bc840e2a1847fb9b49cd206a577ecd1cd15e285

/-- `MESSAGE_HASH` of the fixed test vector. -/
def MESSAGE_HASH : Bytes :=
  beBytes 32 0x2bdc19071c7994f088103dbf8d5476d6deb6d55ee005a2f510dc7640055cc84e

/-- `EXPECTED_SIGMA` of the fixed test vector. -/
def EXPECTED_SIGMA : Bytes :=
  beBytes 32 0xbeb37e87509e15cd88b19fa224441c56acc0e143cb25b9fd1e57fdafed215538

/-! ## Threshold parameters (claim C7) -/

/-- Modelled from the spec: `ThresholdParameters::from_share_count` (engine) and
`KeygenResponseStatus::success_threshold` (cf-vaults pallet) are not in the sources;
§3 of the specification fixes the signing threshold derived from the share count `N`
as `t = ⌈N·2/3⌉`, realised for naturals as `(2·N + 2) / 3`, and
`test_threshold` in `cf-vaults/src/tests.rs` pins its values at 144..151 shares. -/
def success_threshold_from_share_count (share_count : Nat) : Nat :=
  (2 * share_count + 2) / 3

/-! ## Heartbeat scheduling in the observer (claim C9) -/

/-- `blocks_per_heartbeat` (`sc_observer.rs`, line 126). -/
def blocks_per_heartbeat (heartbeat_block_interval : Nat) : Nat :=
  max 1 (heartbeat_block_interval / 2)

/-- The heartbeat-submission condition of the observer main loop
(`sc_observer.rs`, lines 440-443). -/
def should_send_heartbeat (heartbeat_block_interval block_number : Nat) : Bool :=
  (block_number + heartbeat_block_interval / 2) % blocks_per_heartbeat heartbeat_block_interval
    == 0

/-! ## State-chain observer: multisig-outcome submission (claim C8) -/

abbrev AccountId := Nat

abbrev CeremonyId := Nat

/-- `SchnorrSignature { s: [u8; 32], r: secp256k1::PublicKey }` as produced by
`aggregate_signature`. -/
structure SchnorrSignature where
  s : Bytes
  r : Point
deriving DecidableEq

/-- Modelled from the spec: `SigningOutcome` is defined in the (absent)
`multisig::client` module; the observer destructures it as
`SigningOutcome { id, result }` with `result` either `Ok(sig)` or
`Err((err, bad_account_ids))` (§4.5 / §7 of the specification). -/
structure SigningOutcome where
  id : CeremonyId
  result : Except (String × List AccountId) SchnorrSignature

/-- Modelled from the spec: `KeygenOutcome { id, result }`, with the successful
result carrying the keygen result whose aggregate public key the observer
compresses for submission. -/
structure KeygenOutcome where
  id : CeremonyId
  result : Except (String × List AccountId) Point

/-- `MultisigOutcome` (engine `multisig/mod.rs`). -/
inductive MultisigOutcome where
  | signing (outcome : SigningOutcome)
  | keygen (outcome : KeygenOutcome)

/-- Whether an extrinsic is submitted via `submit_signed_extrinsic` or
`submit_unsigned_extrinsic`. -/
inductive ExtrinsicOrigin where
  | signed
  | unsigned
deriving DecidableEq

/-- The state-chain calls the observer can submit for a multisig outcome
(`sc_observer.rs`, lines 30-99), named as in the source. -/
inductive SCCall where
  | signature_success (id : CeremonyId) (sig : SchnorrSignature)
  | report_signature_failed_unbounded (id : CeremonyId) (blamed : List AccountId)
  | report_keygen_outcome_success (id : CeremonyId) (compressed_pubkey : Bytes)
  | report_keygen_outcome_failure (id : CeremonyId) (blamed : Finset AccountId)
deriving DecidableEq

/-- The Rust name of the pallet call a submission carries. -/
def SCCall.rustName : SCCall → String
  | .signature_success _ _ => "signature_success"
  | .report_signature_failed_unbounded _ _ => "report_signature_failed_unbounded"
  | .report_keygen_outcome_success _ _ => "report_keygen_outcome"
  | .report_keygen_outcome_failure _ _ => "report_keygen_outcome"

/-- `process_multisig_outcome` (`sc_observer.rs`, lines 23-100): the extrinsic
submitted for each multisig outcome, with its origin. -/
def process_multisig_outcome : MultisigOutcome → ExtrinsicOrigin × SCCall
  | .signing o =>
      match o.result with
      | .ok sig => (.unsigned, .signature_success o.id sig)
      | .error (_, bad_account_ids) =>
          (.signed, .report_signature_failed_unbounded o.id bad_account_ids)
  | .keygen o =>
      match o.result with
      | .ok key => (.signed, .report_keygen_outcome_success o.id (compress key))
      | .error (_, bad_account_ids) =>
          (.signed, .report_keygen_outcome_failure o.id bad_account_ids.toFinset)

/-! ## Lagrange coefficients (claim C5) -/

instance : NeZero secpN := ⟨by decide⟩

/-- Inverse in the scalar field, via Fermat (the curve order is prime). -/
def scalarInv (s : Scalar) : Scalar :=
  ((powMod 256 s.val (secpN - 2) secpN : Nat) : Scalar)

/-- Modelled from the spec: `Scalar::invert` of the absent `multisig::crypto`
module; §4.1 lists scalar inversion among the primitives, and it fails exactly
on the zero scalar. -/
def Scalar.invert (s : Scalar) : Option Scalar :=
  if s = 0 then none else some (scalarInv s)

/-- The numerator product of `get_lagrange_coeff`: `∏ j` over the other signer
indices (the loop skips `j = signer_index`). -/
def lagrangeNum (signer_index : Nat) (all_signer_indices : Finset Nat) : Scalar :=
  ∏ j in all_signer_indices.erase signer_index, (j : Scalar)

/-- The denominator product of `get_lagrange_coeff`: `∏ (j − signer_index)` over
the other signer indices. -/
def lagrangeDen (signer_index : Nat) (all_signer_indices : Finset Nat) : Scalar :=
  ∏ j in all_signer_indices.erase signer_index, ((j : Scalar) - (signer_index : Scalar))

/-- `get_lagrange_coeff` (multisig `frost.rs`, lines 123-148): the `BTreeSet` of
signer indices is a `Finset`; the function errors exactly when the denominator
cannot be inverted. -/
def get_lagrange_coeff (signer_index : Nat) (all_signer_indices : Finset Nat) :
    Option Scalar :=
  (Scalar.invert (lagrangeDen signer_index all_signer_indices)).map
    (fun dinv => lagrangeNum signer_index all_signer_indices * dinv)

/-- Product of the naturals in `[a, b)`, computed by halving (`fuel` bounds the
recursion depth); used to certify that the curve order has no small divisor. -/
def rangeProd : Nat → Nat → Nat → Nat
  | fuel, a, b =>
      if b ≤ a then 1
      else if b = a + 1 then a
      else match fuel with
        | 0 => 1
        | fuel + 1 => rangeProd fuel a ((a + b) / 2) * rangeProd fuel ((a + b) / 2) b

/-! ## FROST signing, multisig revision (claims C2, C3, C4) -/

/-- `SigningCommitment { index, d, e }` (multisig `frost.rs`, lines 56-60). -/
structure SigningCommitment where
  index : Nat
  d : Point
  e : Point
deriving DecidableEq

/-- Model of `HashMap<usize, T>`: the key set together with a total lookup
function (the Rust lookups panic on absent keys; theorems that depend on a
lookup carry the corresponding key-membership hypotheses). -/
structure HMap (T : Type) where
  keys : Finset Nat
  val : Nat → T

/-- The ascending enumeration of a finite set of naturals (the iteration order of
a `BTreeSet<usize>`), computed so that it reduces in the kernel. -/
def sortedList (s : Finset Nat) : List Nat :=
  (List.range (s.sup id + 1)).filter (fun i => decide (i ∈ s))

/-- `gen_rho_i` (multisig `frost.rs`, lines 151-176): the binding value for party
`index` is SHA-256 of `"I" ‖ index ‖ msg ‖ (j ‖ D_j ‖ E_j for j in the signer
set)` reduced to a scalar; the `BTreeSet` of signer indices is iterated in
ascending order, here via `Finset.sort`. -/
def gen_rho_i (index : Nat) (msg : Bytes) (signing_commitments : HMap SigningCommitment)
    (all_idxs : Finset Nat) : Scalar :=
  scalarFromBytes (sha256 ([0x49] ++ beBytes 8 index ++ msg
    ++ (sortedList all_idxs).flatMap (fun idx =>
        beBytes 8 idx ++ compress (signing_commitments.val idx).d
          ++ compress (signing_commitments.val idx).e)))

/-- `KeyShare { x_i, y }`. -/
structure KeyShare where
  x_i : Scalar
  y : Point

/-- `gen_group_commitment` (multisig `frost.rs`, lines 108-119):
`R = Σ (D_i + ρ_i·E_i)` over the commitment map.  Point addition is commutative,
so the unordered `HashMap` iteration is modelled as the ascending key order. -/
def gen_group_commitment (signing_commitments : HMap SigningCommitment)
    (bindings : Nat → Scalar) : Point :=
  ((sortedList signing_commitments.keys).map (fun idx =>
      pointAdd (signing_commitments.val idx).d
        (pointMul (bindings idx).val (signing_commitments.val idx).e))).foldl pointAdd none

/-- `generate_bindings` (multisig `frost.rs`, lines 181-193): a binding value for
each commitment-map key.  Its `assert_eq!(c.index, *idx)` is modelled as a
well-formedness condition checked by `aggregate_signature` below. -/
def generate_bindings (msg : Bytes) (commitments : HMap SigningCommitment)
    (all_idxs : Finset Nat) : HMap Scalar :=
  ⟨commitments.keys, fun idx => gen_rho_i idx msg commitments all_idxs⟩

/-- `is_party_response_valid` (multisig `frost.rs`, lines 244-252):
`z_i·G == commitment − y_i·e·λ_i`. -/
def is_party_response_valid (y_i : Point) (lambda_i : Scalar) (commitment : Point)
    (challenge : Scalar) (signature_response : Scalar) : Bool :=
  pointMul signature_response.val secpG
    == pointAdd commitment (pointNeg (pointMul lambda_i.val (pointMul challenge.val y_i)))

/-- The per-signer check performed inside the `aggregate_signature` loop
(multisig `frost.rs`, lines 277-297): validity of signer `i`'s response share
against its public share, Lagrange coefficient, bound commitment and the
settlement-chain challenge. -/
def party_response_check (msg : Bytes) (signer_idxs : Finset Nat) (agg_pubkey : Point)
    (pubkeys : Nat → Point) (commitments : HMap SigningCommitment)
    (responses : HMap Scalar) (i : Nat) : Bool :=
  is_party_response_valid (pubkeys i) ((get_lagrange_coeff i signer_idxs).getD 0)
    (pointAdd (commitments.val i).d
      (pointMul ((generate_bindings msg commitments signer_idxs).val i).val
        (commitments.val i).e))
    (build_challenge agg_pubkey
      (gen_group_commitment commitments (generate_bindings msg commitments signer_idxs).val)
      msg)
    (responses.val i)

/-- `aggregate_signature` (multisig `frost.rs`, lines 257-313).  The outer
`Option` models the two panics (`assert_eq` on commitment indices and the
Lagrange `unwrap`); inside, `Ok` carries `{s: Σ z_i, r: R}` when every signer
passes the check, otherwise `Err` carries the failing indices in ascending
(`BTreeSet` iteration) order. -/
def aggregate_signature (msg : Bytes) (signer_idxs : Finset Nat) (agg_pubkey : Point)
    (pubkeys : Nat → Point) (commitments : HMap SigningCommitment)
    (responses : HMap Scalar) : Option (Except (List Nat) SchnorrSignature) :=
  if (∀ i ∈ commitments.keys, (commitments.val i).index = i)
      ∧ ∀ i ∈ signer_idxs, lagrangeDen i signer_idxs ≠ 0 then
    if ((sortedList signer_idxs).filter (fun i =>
        ! party_response_check msg signer_idxs agg_pubkey pubkeys commitments responses i)).isEmpty
    then
      some (Except.ok ⟨scalarToBytes (Finset.sum responses.keys responses.val),
        gen_group_commitment commitments (generate_bindings msg commitments signer_idxs).val⟩)
    else
      some (Except.error ((sortedList signer_idxs).filter (fun i =>
        ! party_response_check msg signer_idxs agg_pubkey pubkeys commitments responses i)))
  else none

/-! ## Keygen blame resolution (claim C6) -/

/-- The ceremony's participant indices `1..N`. -/
def keygenParticipants (N : Nat) : Finset Nat := Finset.Icc 1 N

/-- Participants that submitted a failure report (each report names a guilty set). -/
def keygenResponders (N : Nat) (report : Nat → Option (Finset Nat)) : Finset Nat :=
  (keygenParticipants N).filter (fun i => (report i).isSome)

/-- Participants that submitted nothing before the timeout. -/
def keygenUnresponsive (N : Nat) (report : Nat → Option (Finset Nat)) : Finset Nat :=
  (keygenParticipants N).filter (fun i => report i = none)

/-- The reporters that named exactly the guilty set `S`. -/
def votersFor (N : Nat) (report : Nat → Option (Finset Nat)) (S : Finset Nat) : Finset Nat :=
  (keygenParticipants N).filter (fun i => report i = some S)

/-- The reporters that named party `p` guilty. -/
def namersOf (N : Nat) (report : Nat → Option (Finset Nat)) (p : Nat) : Finset Nat :=
  (keygenResponders N report).filter (fun j => p ∈ (report j).getD ∅)

/-- The parties named guilty by at least `2N/3` of the failure reports. -/
def individuallyNamed (N : Nat) (report : Nat → Option (Finset Nat)) : Finset Nat :=
  (keygenParticipants N).filter (fun p => 2 * N ≤ 3 * (namersOf N report p).card)

/-- Modelled from the spec: `KeygenResponseStatus::resolve_keygen_outcome` of the
`cf-vaults` pallet is not in the sources (only its tests
`test_failure_dissent` / `test_blaming_aggregation` are); §4.4 of the
specification fixes the blame-aggregation rules for a failed keygen ceremony:
a set named by ≥ `2N/3` of the reports is blamed, parties that failed to
respond are always blamed, and with ≥ `2N/3` reports but no agreed set only the
non-responders are blamed.  The individual-blame margin realising these rules
is the `2N/3` reporting threshold itself — a party is blamed exactly when named
by ≥ `2N/3` of the reports — as pinned by the in-src tests
(`test_failure_dissent` blames only the unresponsive `18..=24` although party
17 is named by 15 of 24; `test_blaming_aggregation`'s overlapping-agreement
case blames `{1, 11}`, each named by 8 of 12, with no agreed set). -/
def resolve_keygen_blame (N : Nat) (report : Nat → Option (Finset Nat)) : Finset Nat :=
  individuallyNamed N report ∪ keygenUnresponsive N report

/-- The failure-report pattern of `test_blaming_aggregation`'s
"one candidate unresponsive, one blamed by majority" scenario (`b"ffffftf"` with
reports `[3]` from everyone except candidate 3, who reports `[4]`; candidate 6
is unresponsive). -/
def c6Report : Nat → Option (Finset Nat) :=
  fun i => if i = 6 then none else if i = 3 then some {4} else some {3}

/-- `SecretNoncePair { d, d_pub, e, e_pub }` (multisig `frost.rs`, lines 31-36). -/
structure SecretNoncePair where
  d : Scalar
  d_pub : Point
  e : Scalar
  e_pub : Point

/-- `generate_local_sig` (multisig `frost.rs`, lines 196-223): the response is
`generate_contract_schnorr_sig(λ_i·x_i, Y, R, d + ρ_i·e, msg)`, so the challenge
is built with the aggregate key `Y` in the key slot and the group commitment `R`
in the nonce-commitment slot — `challenge(Y, R, m)`.  The `Option` models the
panics (Lagrange `expect`, and `bindings[&own_idx]` when `own_idx` has no
commitment). -/
def generate_local_sig (msg : Bytes) (key : KeyShare) (nonces : SecretNoncePair)
    (commitments : HMap SigningCommitment) (own_idx : Nat) (all_idxs : Finset Nat) :
    Option Scalar :=
  if own_idx ∈ commitments.keys then
    match get_lagrange_coeff own_idx all_idxs with
    | none => none
    | some lambda_i =>
        some (generate_contract_schnorr_sig (lambda_i * key.x_i) key.y
          (gen_group_commitment commitments (generate_bindings msg commitments all_idxs).val)
          (nonces.d + nonces.e * (generate_bindings msg commitments all_idxs).val own_idx)
          msg)
  else none

/-! ## FROST signing, client_inner revision (claims C2, C10) -/

/-- `gen_rho_i` (client_inner `frost.rs`, lines 218-237): same hash layout as the
multisig revision, but the commitment slice is iterated in the order given. -/
def gen_rho_i_ci (index : Nat) (msg : Bytes)
    (signing_commitments : List SigningCommitment) : Scalar :=
  scalarFromBytes (sha256 ([0x49] ++ beBytes 8 index ++ msg
    ++ signing_commitments.flatMap (fun com =>
        beBytes 8 com.index ++ compress com.d ++ compress com.e)))

/-- `generate_bindings` (client_inner `frost.rs`, lines 242-247): a map keyed by
each commitment's `index` field; lookup of an absent key is `none` (a panic at
the Rust call sites). -/
def generate_bindings_ci (msg : Bytes) (commitments : List SigningCommitment) :
    Nat → Option Scalar :=
  fun idx => (commitments.find? (fun c => c.index == idx)).map
    (fun _ => gen_rho_i_ci idx msg commitments)

/-- `gen_group_commitment` (client_inner `frost.rs`, lines 175-187): folds
`D_i + ρ_i·E_i` over the slice in order; `none` models the `.reduce` panic on an
empty slice and the `bindings[&comm.index]` lookup panics. -/
def gen_group_commitment_ci (commitments : List SigningCommitment)
    (bindings : Nat → Option Scalar) : Option Point :=
  if commitments.isEmpty then none
  else if commitments.all (fun c => (bindings c.index).isSome) then
    some ((commitments.map (fun c =>
      pointAdd c.d (pointMul ((bindings c.index).getD 0).val c.e))).foldl pointAdd none)
  else none

/-- `get_lagrange_coeff` (client_inner `frost.rs`, lines 191-215): slice version;
`none` models the explicit `Err("Duplicate shares provided")` on a zero
denominator.  The loop skips on `usize` equality but converts each index through
`BigInt::from(*j as u32)`, so the scalars are built from the indices **truncated
to 32 bits**. -/
def get_lagrange_coeff_ci (signer_index : Nat) (all_signer_indices : List Nat) :
    Option Scalar :=
  if ((all_signer_indices.filter (fun j => j ≠ signer_index)).map
        (fun (j : Nat) => ((j % 2 ^ 32 : Nat) : Scalar)
          - ((signer_index % 2 ^ 32 : Nat) : Scalar))).prod = 0 then none
  else some (((all_signer_indices.filter (fun j => j ≠ signer_index)).map
        (fun (j : Nat) => ((j % 2 ^ 32 : Nat) : Scalar))).prod
      * scalarInv (((all_signer_indices.filter (fun j => j ≠ signer_index)).map
        (fun (j : Nat) => ((j % 2 ^ 32 : Nat) : Scalar)
          - ((signer_index % 2 ^ 32 : Nat) : Scalar))).prod))

/-- `generate_local_sig` (client_inner `frost.rs`, lines 250-276).  Modelled from
the spec for the challenge call: `build_challenge` of the absent
`signing::crypto` module is invoked as
`build_challenge(group_commitment, key.y, msg)`, which §9 of the specification
identifies as the transposed ordering `challenge(R, Y, m)` — the group
commitment occupies the key slot of the settlement-chain challenge. -/
def generate_local_sig_ci (msg : Bytes) (key : KeyShare) (nonces : SecretNoncePair)
    (commitments : List SigningCommitment) (own_idx : Nat) (all_idxs : List Nat) :
    Option Scalar :=
  match gen_group_commitment_ci commitments (generate_bindings_ci msg commitments),
      generate_bindings_ci msg commitments own_idx,
      get_lagrange_coeff_ci own_idx all_idxs with
  | some group_commitment, some rho_i, some lambda_i =>
      some ((nonces.d + nonces.e * rho_i)
        - lambda_i * key.x_i * build_challenge group_commitment key.y msg)
  | _, _, _ => none

/-- `sortedList` enumerates exactly the set's elements. -/
theorem sortedList_mem (s : Finset Nat) (i : Nat) : i ∈ sortedList s ↔ i ∈ s := by
  unfold sortedList
  simp only [List.mem_filter, List.mem_range, decide_eq_true_eq]
  constructor
  · exact fun h => h.2
  · intro h
    refine ⟨?_, h⟩
    have := Finset.le_sup (f := id) h
    simpa using Nat.lt_succ_of_le this

/-- `sortedList` is strictly ascending. -/
theorem sortedList_sorted (s : Finset Nat) : (sortedList s).Sorted (· < ·) :=
  (List.pairwise_lt_range _).filter _

/-- `sortedList` recovers the set. -/
theorem sortedList_toFinset (s : Finset Nat) : (sortedList s).toFinset = s :=
  Finset.ext (fun a => by rw [List.mem_toFinset, sortedList_mem])

/-- The per-signer body of the client_inner `aggregate_signature` loop
(client_inner `frost.rs`, lines 314-331): `none` models the panics — a zero
signer index (the `signer_idx - 1` underflow), an out-of-range vector access, a
missing binding, or a failing Lagrange `unwrap`. -/
def signer_share_check_ci (msg : Bytes) (signer_idxs : List Nat) (challenge : Scalar)
    (pubkeys : List Point) (commitments : List SigningCommitment) (responses : List Scalar)
    (signer_idx : Nat) : Option (Nat × Bool) :=
  if signer_idx = 0 then none
  else
    (commitments[signer_idx - 1]?).bind fun commitment =>
    (pubkeys[signer_idx - 1]?).bind fun y_i =>
    (responses[signer_idx - 1]?).bind fun response =>
    (generate_bindings_ci msg commitments signer_idx).bind fun rho_i =>
    (get_lagrange_coeff_ci signer_idx signer_idxs).map fun lambda_i =>
    (signer_idx, is_party_response_valid y_i lambda_i
      (pointAdd commitment.d (pointMul rho_i.val commitment.e)) challenge response)

/-- Run the loop body over the signer list; any panic aborts the whole run. -/
def traverseChecks (f : Nat → Option (Nat × Bool)) : List Nat → Option (List (Nat × Bool))
  | [] => some []
  | i :: rest =>
      match f i, traverseChecks f rest with
      | some c, some cs => some (c :: cs)
      | _, _ => none

/-- `aggregate_signature` (client_inner `frost.rs`, lines 294-347): commitments,
public keys and responses are vectors indexed at `signer_idx - 1`; the challenge
is the transposed `challenge(R, Y, m)` of this revision; `Ok {s: Σ z_i, r: R}`
when all checks pass, otherwise `Err` with the failing indices. -/
def aggregate_signature_ci (msg : Bytes) (signer_idxs : List Nat) (agg_pubkey : Point)
    (pubkeys : List Point) (commitments : List SigningCommitment) (responses : List Scalar) :
    Option (Except (List Nat) SchnorrSignature) :=
  match gen_group_commitment_ci commitments (generate_bindings_ci msg commitments) with
  | none => none
  | some group_commitment =>
      match traverseChecks (signer_share_check_ci msg signer_idxs
          (build_challenge group_commitment agg_pubkey msg) pubkeys commitments responses)
          signer_idxs with
      | none => none
      | some checks =>
          if ((checks.filter (fun c => ! c.2)).map (fun c => c.1)).isEmpty then
            some (Except.ok ⟨scalarToBytes (responses.foldl (fun acc x => acc + x) 0),
              group_commitment⟩)
          else some (Except.error ((checks.filter (fun c => ! c.2)).map (fun c => c.1)))

/-- Claim C1: on the fixed test vector (`x = SECRET_KEY`, `k = NONCE_KEY`,
`m = MESSAGE_HASH`), `generate_contract_schnorr_sig(x, Y = x·G, R = k·G, k, m)`
returns the scalar `σ = k − x·e (mod n)` whose 32-byte encoding is exactly
`EXPECTED_SIGMA` (`beb37e87…5538`), and `σ` satisfies the verification equation
`σ·G = R − e·Y` with `e` the settlement-chain challenge. -/
theorem signature_is_contract_compatible :
    scalarToBytes (generate_contract_schnorr_sig (SECRET_KEY : Scalar)
        (pointMul SECRET_KEY secpG) (pointMul NONCE_KEY secpG) (NONCE_KEY : Scalar) MESSAGE_HASH)
      = EXPECTED_SIGMA
    ∧ pointMul (generate_contract_schnorr_sig (SECRET_KEY : Scalar)
          (pointMul SECRET_KEY secpG) (pointMul NONCE_KEY secpG) (NONCE_KEY : Scalar)
          MESSAGE_HASH).val secpG
      = pointAdd (pointMul NONCE_KEY secpG)
          (pointNeg (pointMul (build_challenge (pointMul SECRET_KEY secpG)
            (pointMul NONCE_KEY secpG) MESSAGE_HASH).val (pointMul SECRET_KEY secpG))) := by
  constructor
  · decide
  · decide

/-- Claim C7: for every participant count `N`, the threshold derived from the share
count equals `⌈N·2/3⌉` (it is the least `t` with `2·N ≤ 3·t`), and it matches the
values pinned by `test_threshold`: 144 ↦ 96, 145 ↦ 97, 146 ↦ 98, 147 ↦ 98,
148 ↦ 99, 149 ↦ 100, 150 ↦ 100, 151 ↦ 101. -/
theorem success_threshold_is_ceiling :
    (∀ N : Nat, 2 * N ≤ 3 * success_threshold_from_share_count N
      ∧ ∀ m : Nat, 2 * N ≤ 3 * m → success_threshold_from_share_count N ≤ m)
    ∧ success_threshold_from_share_count 144 = 96
    ∧ success_threshold_from_share_count 145 = 97
    ∧ success_threshold_from_share_count 146 = 98
    ∧ success_threshold_from_share_count 147 = 98
    ∧ success_threshold_from_share_count 148 = 99
    ∧ success_threshold_from_share_count 149 = 100
    ∧ success_threshold_from_share_count 150 = 100
    ∧ success_threshold_from_share_count 151 = 101 := by
  refine ⟨fun N => ⟨?_, fun m hm => ?_⟩, by decide, by decide, by decide, by decide,
    by decide, by decide, by decide, by decide⟩
  · unfold success_threshold_from_share_count
    omega
  · unfold success_threshold_from_share_count at *
    omega

/-- Witness for C7: at `N = 145` the threshold 97 satisfies `2·145 ≤ 3·97` and is
minimal among all `m` with `2·145 ≤ 3·m` (checked at `m = 97`). -/
theorem success_threshold_is_ceiling_witness :
    2 * 145 ≤ 3 * success_threshold_from_share_count 145
    ∧ success_threshold_from_share_count 145 ≤ 97 :=
  ⟨(success_threshold_is_ceiling.1 145).1,
    (success_threshold_is_ceiling.1 145).2 97 (by decide)⟩

/-- Claim C9: the observer submits a heartbeat on exactly one block in every window
of `heartbeat_block_interval/2` consecutive blocks, and it fires precisely when
`(block_number + heartbeat_block_interval/2) mod max(1, heartbeat_block_interval/2)`
is zero. -/
theorem heartbeat_once_per_half_interval (interval start : Nat) (h : 2 ≤ interval) :
    (∃! b, b ∈ Finset.Ico start (start + interval / 2)
      ∧ should_send_heartbeat interval b = true)
    ∧ ∀ b, should_send_heartbeat interval b = true
          ↔ (b + interval / 2) % max 1 (interval / 2) = 0 := by
  have hiff : ∀ b, should_send_heartbeat interval b = true
      ↔ (b + interval / 2) % max 1 (interval / 2) = 0 := by
    intro b
    simp [should_send_heartbeat, blocks_per_heartbeat]
  refine ⟨?_, hiff⟩
  have hw : 1 ≤ interval / 2 := by omega
  set w := interval / 2 with hwdef
  have hmax : max 1 w = w := by omega
  have hmod : ∀ b, should_send_heartbeat interval b = true ↔ b % w = 0 := by
    intro b
    rw [hiff b, hmax, Nat.add_mod_right]
  have hq := Nat.div_add_mod start w
  have hr : start % w < w := Nat.mod_lt _ (by omega)
  refine ⟨if start % w = 0 then start else w * (start / w) + w, ⟨?_, ?_⟩, ?_⟩
  · by_cases h0 : start % w = 0 <;> simp only [h0, if_true, if_false, Finset.mem_Ico] <;> omega
  · by_cases h0 : start % w = 0
    · simp only [h0, if_true]
      rw [hmod]
      omega
    · simp only [h0, if_false]
      rw [hmod]
      have : w * (start / w) + w = w * (start / w + 1) := by ring
      rw [this, Nat.mul_mod_right]
  · intro y hy
    have hy1 := Finset.mem_Ico.mp hy.1
    have hy2 := (hmod y).mp hy.2
    have hdvd_y : w ∣ y := Nat.dvd_of_mod_eq_zero hy2
    by_cases h0 : start % w = 0
    · simp only [h0, if_true]
      have hdvd_s : w ∣ start := Nat.dvd_of_mod_eq_zero h0
      rcases le_or_lt y start with hle | hlt
      · have : w ∣ start - y := Nat.dvd_sub' hdvd_s hdvd_y
        have := Nat.eq_zero_of_dvd_of_lt this (by omega)
        omega
      · have : w ∣ y - start := Nat.dvd_sub' hdvd_y hdvd_s
        have h2 := Nat.eq_zero_of_dvd_of_lt this (by omega)
        omega
    · simp only [h0, if_false]
      have hdvd_b : w ∣ w * (start / w) + w := ⟨start / w + 1, by ring⟩
      rcases le_or_lt y (w * (start / w) + w) with hle | hlt
      · have : w ∣ w * (start / w) + w - y := Nat.dvd_sub' hdvd_b hdvd_y
        have := Nat.eq_zero_of_dvd_of_lt this (by omega)
        omega
      · have : w ∣ y - (w * (start / w) + w) := Nat.dvd_sub' hdvd_y hdvd_b
        have h2 := Nat.eq_zero_of_dvd_of_lt this (by omega)
        omega

/-- Witness for C9: with `heartbeat_block_interval = 10` there is exactly one
heartbeat block in the window `[7, 12)`, and block 15 satisfies the firing formula. -/
theorem heartbeat_once_per_half_interval_witness :
    ((∃! b, b ∈ Finset.Ico 7 (7 + 10 / 2) ∧ should_send_heartbeat 10 b = true)
      ∧ ∀ b, should_send_heartbeat 10 b = true ↔ (b + 10 / 2) % max 1 (10 / 2) = 0) :=
  heartbeat_once_per_half_interval 10 7 (by decide)

/-- Counterexample to claim C8 as stated: on a signing failure the observer
submits the pallet call named `report_signature_failed_unbounded`, not a call
named `report_signature_failed`. -/
theorem signing_failure_call_name_counterexample :
    ((process_multisig_outcome (.signing ⟨5, .error ("timeout", [2, 7])⟩)).2).rustName
      = "report_signature_failed_unbounded"
    ∧ ((process_multisig_outcome (.signing ⟨5, .error ("timeout", [2, 7])⟩)).2).rustName
      ≠ "report_signature_failed" := by
  exact ⟨rfl, by decide⟩

/-- Claim C8 (amended): on a `SigningOutcome` success the observer submits
`signature_success(ceremony_id, sig)` as an unsigned extrinsic, and on a failure
it submits a signed `report_signature_failed_unbounded(ceremony_id, blamed)`
extrinsic carrying exactly the blamed parties from the outcome. -/
theorem process_multisig_outcome_signing :
    ∀ (id : CeremonyId) (sig : SchnorrSignature) (err : String) (bad : List AccountId),
      process_multisig_outcome (.signing ⟨id, .ok sig⟩)
        = (.unsigned, .signature_success id sig)
      ∧ process_multisig_outcome (.signing ⟨id, .error (err, bad)⟩)
        = (.signed, .report_signature_failed_unbounded id bad) := by
  intro id sig err bad
  exact ⟨rfl, rfl⟩

/-- The curve order is coprime to the product of all naturals in `[2, 4096)`. -/
theorem secpN_coprime_rangeProd : Nat.Coprime secpN (rangeProd 12 2 4096) := by decide

/-- Every natural in `[a, b)` divides `rangeProd fuel a b` when the fuel suffices. -/
theorem rangeProd_dvd :
    ∀ (fuel a b m : Nat), b - a ≤ 2 ^ fuel → a ≤ m → m < b → m ∣ rangeProd fuel a b := by
  intro fuel
  induction fuel with
  | zero =>
    intro a b m h1 h2 h3
    have hb : b = a + 1 := by omega
    have hm : m = a := by omega
    rw [rangeProd]
    simp only [hb]
    have hna : ¬ (a + 1 ≤ a) := by omega
    simp [hna, hm]
  | succ fuel ih =>
    intro a b m h1 h2 h3
    rw [rangeProd]
    have hna : ¬ (b ≤ a) := by omega
    by_cases hb1 : b = a + 1
    · have hm : m = a := by omega
      simp [hna, hb1, hm]
    · simp only [hna, if_false, hb1]
      rcases Nat.lt_or_ge m ((a + b) / 2) with hlt | hge
      · exact Dvd.dvd.mul_right (ih a ((a + b) / 2) m (by omega) h2 hlt) _
      · exact Dvd.dvd.mul_left (ih ((a + b) / 2) b m (by omega) hge h3) _

/-- The curve order is coprime to every positive natural below 4096. -/
theorem secpN_coprime_small (m : Nat) (h0 : 0 < m) (h1 : m < 4096) :
    Nat.Coprime secpN m := by
  rcases Nat.lt_or_ge m 2 with hlt | hge
  · have : m = 1 := by omega
    simp [this, Nat.coprime_one_right]
  · exact Nat.Coprime.coprime_dvd_right
      (rangeProd_dvd 12 2 4096 m (by norm_num) hge h1) secpN_coprime_rangeProd

/-- The Lagrange denominator is nonzero whenever the indices are distinct
naturals in `[1, N]` with `N` far below the curve order. -/
theorem lagrangeDen_ne_zero (signer_index N : Nat) (all : Finset Nat)
    (h₀ : signer_index ∈ all) (h₁ : all ⊆ Finset.Icc 1 N) (h₂ : N < 4096) :
    lagrangeDen signer_index all ≠ 0 := by
  have hsi : 1 ≤ signer_index ∧ signer_index ≤ N := Finset.mem_Icc.mp (h₁ h₀)
  have key : lagrangeDen signer_index all
      = ((∏ j in all.erase signer_index, ((j : ℤ) - (signer_index : ℤ)) : ℤ) : Scalar) := by
    rw [lagrangeDen, Int.cast_prod]
    exact Finset.prod_congr rfl (fun j _ => by push_cast; ring)
  intro hzero
  rw [key, ZMod.intCast_zmod_eq_zero_iff_dvd] at hzero
  have habs : secpN ∣ (∏ j in all.erase signer_index, ((j : ℤ) - (signer_index : ℤ))).natAbs :=
    Int.natAbs_dvd_natAbs.mpr hzero
  rw [show (∏ j in all.erase signer_index, ((j : ℤ) - (signer_index : ℤ))).natAbs
      = ∏ j in all.erase signer_index, ((j : ℤ) - (signer_index : ℤ)).natAbs from
    map_prod Int.natAbsHom _ _] at habs
  have hcop : Nat.Coprime secpN
      (∏ j in all.erase signer_index, ((j : ℤ) - (signer_index : ℤ)).natAbs) := by
    apply Nat.Coprime.prod_right
    intro j hj
    have hjne : j ≠ signer_index := Finset.ne_of_mem_erase hj
    have hjmem : j ∈ Finset.Icc 1 N := h₁ (Finset.mem_of_mem_erase hj)
    have hj1 : 1 ≤ j := (Finset.mem_Icc.mp hjmem).1
    have hjN : j ≤ N := (Finset.mem_Icc.mp hjmem).2
    have hpos : 0 < ((j : ℤ) - (signer_index : ℤ)).natAbs := by omega
    rcases Nat.lt_or_ge j signer_index with hlt | hge
    · -- the factor is `signer_index - j`; it is bounded by `signer_index`,
      -- which the divisibility bound handles through `j`: use the factor itself
      have hfac : ((j : ℤ) - (signer_index : ℤ)).natAbs = signer_index - j := by omega
      exact hfac ▸ secpN_coprime_small _ (by omega) (by omega)
    · have hfac : ((j : ℤ) - (signer_index : ℤ)).natAbs = j - signer_index := by omega
      exact hfac ▸ secpN_coprime_small _ (by omega) (by omega)
  have := Nat.Coprime.eq_one_of_dvd hcop habs
  exact absurd this (by decide)

/-- Claim C5: `get_lagrange_coeff` returns an error exactly when the denominator
product of `(j − signer_index)` over the other indices is zero modulo the curve
order; consequently for any set of distinct indices in `[1, N]` (with `N < 4096`,
far below the curve order) containing `signer_index`, `get_lagrange_coeff` always
returns `Ok` — the duplicate-shares error branch is unreachable. -/
theorem get_lagrange_coeff_ok (signer_index N : Nat) (all : Finset Nat)
    (h₀ : signer_index ∈ all) (h₁ : all ⊆ Finset.Icc 1 N) (h₂ : N < 4096) :
    (∀ (i : Nat) (s : Finset Nat), get_lagrange_coeff i s = none ↔ lagrangeDen i s = 0)
    ∧ ∃ c, get_lagrange_coeff signer_index all = some c := by
  constructor
  · intro i s
    unfold get_lagrange_coeff Scalar.invert
    by_cases h : lagrangeDen i s = 0 <;> simp [h]
  · have h := lagrangeDen_ne_zero signer_index N all h₀ h₁ h₂
    unfold get_lagrange_coeff Scalar.invert
    simp [h]

/-- Witness for C5: the signer set `{1, 2, 3}` with `signer_index = 2`, `N = 3`. -/
theorem get_lagrange_coeff_ok_witness :
    2 ∈ ({1, 2, 3} : Finset Nat)
    ∧ ((∀ (i : Nat) (s : Finset Nat), get_lagrange_coeff i s = none ↔ lagrangeDen i s = 0)
      ∧ ∃ c, get_lagrange_coeff 2 ({1, 2, 3} : Finset Nat) = some c) :=
  ⟨by decide, get_lagrange_coeff_ok 2 3 ({1, 2, 3} : Finset Nat) (by decide)
    (by decide) (by decide)⟩

/-- Claim C4: `gen_rho_i` hashes `"I" ‖ index (8-byte BE) ‖ msg ‖` the
concatenation over the signer indices **in ascending order** of
`j (8-byte BE) ‖ compressed D_j ‖ compressed E_j`, reduced to a scalar: for any
strictly ascending enumeration `l` of the signer set, the hash input enumerates
exactly `l` — never an insertion order. -/
theorem gen_rho_i_ascending_order (index : Nat) (msg : Bytes)
    (comms : HMap SigningCommitment) (all_idxs : Finset Nat) (l : List Nat)
    (hsorted : l.Sorted (· < ·)) (hset : l.toFinset = all_idxs) :
    gen_rho_i index msg comms all_idxs
      = scalarFromBytes (sha256 ([0x49] ++ beBytes 8 index ++ msg
          ++ l.flatMap (fun idx => beBytes 8 idx ++ compress (comms.val idx).d
              ++ compress (comms.val idx).e))) := by
  have hnodup : l.Nodup := hsorted.nodup
  have hperm : (sortedList all_idxs).Perm l :=
    List.perm_of_nodup_nodup_toFinset_eq (sortedList_sorted all_idxs).nodup hnodup
      (by rw [sortedList_toFinset, hset])
  have heq : sortedList all_idxs = l :=
    List.eq_of_perm_of_sorted hperm ((sortedList_sorted all_idxs).imp
      (fun {a b} hab => le_of_lt hab)) (hsorted.imp (fun {a b} hab => le_of_lt hab))
  rw [gen_rho_i, heq]

/-- Witness for C4: the signer set `{1, 2}` enumerated as `[1, 2]`. -/
theorem gen_rho_i_ascending_order_witness :
    ([1, 2] : List Nat).Sorted (· < ·)
    ∧ gen_rho_i 1 [] ⟨{1, 2}, fun _ => ⟨1, secpG, secpG⟩⟩ ({1, 2} : Finset Nat)
      = scalarFromBytes (sha256 ([0x49] ++ beBytes 8 1 ++ []
          ++ ([1, 2] : List Nat).flatMap (fun idx => beBytes 8 idx
              ++ compress ((⟨1, secpG, secpG⟩ : SigningCommitment)).d
              ++ compress ((⟨1, secpG, secpG⟩ : SigningCommitment)).e))) :=
  ⟨by decide, gen_rho_i_ascending_order 1 [] ⟨{1, 2}, fun _ => ⟨1, secpG, secpG⟩⟩
    ({1, 2} : Finset Nat) [1, 2] (by decide) (by decide)⟩

/-- Claim C3: `aggregate_signature` returns `Ok {s: Σ z_i, r: R}` iff every
signer's response passes `z_i·G == (D_i + ρ_i·E_i) − (λ_i·Y_i·e)`; otherwise it
returns `Err` containing exactly the signer indices whose check failed, and the
blame set is a subset of the ceremony's signer index set. -/
theorem aggregate_signature_ok_iff (msg : Bytes) (signer_idxs : Finset Nat)
    (agg_pubkey : Point) (pubkeys : Nat → Point) (commitments : HMap SigningCommitment)
    (responses : HMap Scalar)
    (hwf : ∀ i ∈ commitments.keys, (commitments.val i).index = i)
    (hlag : ∀ i ∈ signer_idxs, lagrangeDen i signer_idxs ≠ 0) :
    (aggregate_signature msg signer_idxs agg_pubkey pubkeys commitments responses
        = some (Except.ok ⟨scalarToBytes (Finset.sum responses.keys responses.val),
            gen_group_commitment commitments (generate_bindings msg commitments signer_idxs).val⟩)
      ↔ ∀ i ∈ signer_idxs,
          party_response_check msg signer_idxs agg_pubkey pubkeys commitments responses i = true)
    ∧ ∀ bl, aggregate_signature msg signer_idxs agg_pubkey pubkeys commitments responses
        = some (Except.error bl) →
        ((∀ i, i ∈ bl ↔ i ∈ signer_idxs
            ∧ party_response_check msg signer_idxs agg_pubkey pubkeys commitments responses i
              = false)
          ∧ ∀ i ∈ bl, i ∈ signer_idxs) := by
  unfold aggregate_signature
  rw [if_pos ⟨hwf, hlag⟩]
  by_cases hemp : ((sortedList signer_idxs).filter (fun i =>
      ! party_response_check msg signer_idxs agg_pubkey pubkeys commitments responses i)).isEmpty
  · rw [if_pos hemp]
    have hall : ∀ i ∈ signer_idxs,
        party_response_check msg signer_idxs agg_pubkey pubkeys commitments responses i = true := by
      intro i hi
      have := List.filter_eq_nil_iff.mp (List.isEmpty_iff.mp hemp) i ((sortedList_mem _ _).mpr hi)
      simpa using this
    exact ⟨⟨fun _ => hall, fun _ => rfl⟩, fun bl hbl => by simp at hbl⟩
  · rw [if_neg hemp]
    constructor
    · constructor
      · intro h
        simp at h
      · intro hall
        exfalso
        apply hemp
        rw [List.isEmpty_iff, List.filter_eq_nil_iff]
        intro i hi
        simp [hall i ((sortedList_mem _ _).mp hi)]
    · intro bl hbl
      have hbl2 : ((sortedList signer_idxs).filter (fun i =>
          ! party_response_check msg signer_idxs agg_pubkey pubkeys commitments responses i))
            = bl := by
        simpa using hbl
      subst hbl2
      constructor
      · intro i
        rw [List.mem_filter]
        simp [sortedList_mem]
      · intro i hi
        exact (sortedList_mem _ _).mp (List.mem_filter.mp hi).1

/-- Witness for C3: singleton signer set `{1}` with trivially well-formed maps. -/
theorem aggregate_signature_ok_iff_witness :
    (∀ i ∈ (⟨{1}, fun _ => ⟨1, secpG, secpG⟩⟩ : HMap SigningCommitment).keys,
        ((⟨{1}, fun _ => ⟨1, secpG, secpG⟩⟩ : HMap SigningCommitment).val i).index = i)
    ∧ (∀ i ∈ ({1} : Finset Nat), lagrangeDen i ({1} : Finset Nat) ≠ 0)
    ∧ ((aggregate_signature [] ({1} : Finset Nat) secpG (fun _ => secpG)
          ⟨{1}, fun _ => ⟨1, secpG, secpG⟩⟩ ⟨{1}, fun _ => (1 : Scalar)⟩
          = some (Except.ok ⟨scalarToBytes (Finset.sum ({1} : Finset Nat) (fun _ => (1 : Scalar))),
              gen_group_commitment ⟨{1}, fun _ => ⟨1, secpG, secpG⟩⟩
                (generate_bindings [] ⟨{1}, fun _ => ⟨1, secpG, secpG⟩⟩ ({1} : Finset Nat)).val⟩)
        ↔ ∀ i ∈ ({1} : Finset Nat),
            party_response_check [] ({1} : Finset Nat) secpG (fun _ => secpG)
              ⟨{1}, fun _ => ⟨1, secpG, secpG⟩⟩ ⟨{1}, fun _ => (1 : Scalar)⟩ i = true)
      ∧ ∀ bl, aggregate_signature [] ({1} : Finset Nat) secpG (fun _ => secpG)
            ⟨{1}, fun _ => ⟨1, secpG, secpG⟩⟩ ⟨{1}, fun _ => (1 : Scalar)⟩
          = some (Except.error bl) →
          ((∀ i, i ∈ bl ↔ i ∈ ({1} : Finset Nat)
              ∧ party_response_check [] ({1} : Finset Nat) secpG (fun _ => secpG)
                  ⟨{1}, fun _ => ⟨1, secpG, secpG⟩⟩ ⟨{1}, fun _ => (1 : Scalar)⟩ i = false)
            ∧ ∀ i ∈ bl, i ∈ ({1} : Finset Nat))) :=
  ⟨by decide, by decide,
    aggregate_signature_ok_iff [] ({1} : Finset Nat) secpG (fun _ => secpG)
      ⟨{1}, fun _ => ⟨1, secpG, secpG⟩⟩ ⟨{1}, fun _ => (1 : Scalar)⟩ (by decide) (by decide)⟩

/-- Counterexample to claim C6 as stated: for `N = 7` with five of six reports
naming `{3}` (at least `2N/3` of reports name the same set) and candidate 6
unresponsive, the resolved blame set is `{3, 6}` — not exactly the named set
`{3}`: unresponsive parties are blamed as well. -/
theorem resolve_keygen_blame_counterexample :
    2 * 7 ≤ 3 * (votersFor 7 c6Report {3}).card
    ∧ resolve_keygen_blame 7 c6Report = {3, 6}
    ∧ resolve_keygen_blame 7 c6Report ≠ ({3} : Finset Nat) := by
  exact ⟨by decide, by decide, by decide⟩

/-- Claim C6 (amended): when at least `2N/3` of the failure reports name the same
guilty set `S` (a set of participants), the resolved blame set is exactly `S`
together with every party that submitted no failure report; in general a party
is individually blamed exactly when named by at least `2N/3` of the reports, so
when no party reaches that reporting threshold — in particular in
`test_failure_dissent`'s no-agreement scenario — only the parties who failed to
respond are blamed. -/
theorem resolve_keygen_blame_cases (N : Nat) (report : Nat → Option (Finset Nat))
    (S : Finset Nat) (hN : 0 < N) :
    (S ⊆ keygenParticipants N → 2 * N ≤ 3 * (votersFor N report S).card →
      resolve_keygen_blame N report = S ∪ keygenUnresponsive N report)
    ∧ ((∀ p, 3 * (namersOf N report p).card < 2 * N) →
      resolve_keygen_blame N report = keygenUnresponsive N report) := by
  have hvsub : votersFor N report S ⊆ keygenResponders N report := by
    intro j hj
    have hj2 := Finset.mem_filter.mp hj
    exact Finset.mem_filter.mpr ⟨hj2.1, by rw [hj2.2]; rfl⟩
  have hrcard : (keygenResponders N report).card ≤ N := by
    have h1 : keygenResponders N report ⊆ keygenParticipants N := by
      intro x hx
      exact (Finset.mem_filter.mp hx).1
    have := Finset.card_le_card h1
    simpa [keygenParticipants, Nat.card_Icc] using this
  constructor
  · intro hSsub hS
    have hnamed : individuallyNamed N report = S := by
      refine Finset.ext (fun p => ⟨fun hp => ?_, fun hp => ?_⟩)
      · obtain ⟨hpart, hcount⟩ := Finset.mem_filter.mp hp
        by_contra hpS
        have hdisj : namersOf N report p
            ⊆ keygenResponders N report \ votersFor N report S := by
          intro j hj
          obtain ⟨hresp, hnames⟩ := Finset.mem_filter.mp hj
          refine Finset.mem_sdiff.mpr ⟨hresp, fun hvote => ?_⟩
          have := (Finset.mem_filter.mp hvote).2
          rw [this] at hnames
          exact hpS hnames
        have hcard2 := Finset.card_le_card hdisj
        rw [Finset.card_sdiff hvsub] at hcard2
        have hvcard := Finset.card_le_card hvsub
        omega
      · refine Finset.mem_filter.mpr ⟨hSsub hp, ?_⟩
        have hsub2 : votersFor N report S ⊆ namersOf N report p := by
          intro j hj
          obtain ⟨hjpart, hjrep⟩ := Finset.mem_filter.mp hj
          refine Finset.mem_filter.mpr
            ⟨Finset.mem_filter.mpr ⟨hjpart, by rw [hjrep]; rfl⟩, ?_⟩
          rw [hjrep]
          simpa using hp
        have := Finset.card_le_card hsub2
        omega
    rw [resolve_keygen_blame, hnamed]
  · intro hnone
    have hempty : individuallyNamed N report = ∅ :=
      Finset.filter_eq_empty_iff.mpr (fun {p} _ => by
        have := hnone p
        omega)
    rw [resolve_keygen_blame, hempty, Finset.empty_union]

/-- Witness for C6 (amended): the `b"ffffftf"`-style scenario with `N = 7`,
agreed set `{3}`. -/
theorem resolve_keygen_blame_cases_witness :
    (0 : Nat) < 7
    ∧ ({3} : Finset Nat) ⊆ keygenParticipants 7
    ∧ 2 * 7 ≤ 3 * (votersFor 7 c6Report {3}).card
    ∧ resolve_keygen_blame 7 c6Report
        = ({3} : Finset Nat) ∪ keygenUnresponsive 7 c6Report :=
  ⟨by decide, by decide, by decide,
    (resolve_keygen_blame_cases 7 c6Report {3} (by decide)).1 (by decide) (by decide)⟩

/-- Counterexample to claim C2 as stated: on identical inputs (message =
`MESSAGE_HASH`, key share `x_i = 1`, `Y = G`, nonces `d = e = 1`, the single
signer `1` with commitments `D = E = G`), the two `frost.rs` revisions produce
different local signature responses, because the client_inner revision builds the
challenge as `challenge(R, Y, m)` rather than the authoritative
`challenge(Y, R, m)`. -/
theorem generate_local_sig_revisions_differ :
    generate_local_sig MESSAGE_HASH ⟨1, secpG⟩ ⟨1, secpG, 1, secpG⟩
        ⟨{1}, fun _ => ⟨1, secpG, secpG⟩⟩ 1 ({1} : Finset Nat)
      = some (0x362b356c545ada00fe94de65e1029464b306586195406d30e2f52231c17d6c35 : Scalar)
    ∧ generate_local_sig_ci MESSAGE_HASH ⟨1, secpG⟩ ⟨1, secpG, 1, secpG⟩
        [⟨1, secpG, secpG⟩] 1 [1]
      = some (0xd4345bad6472ad654779913893c85de21cbdf9569899064614a434c0f0bd2a46 : Scalar)
    ∧ generate_local_sig MESSAGE_HASH ⟨1, secpG⟩ ⟨1, secpG, 1, secpG⟩
        ⟨{1}, fun _ => ⟨1, secpG, secpG⟩⟩ 1 ({1} : Finset Nat)
      ≠ generate_local_sig_ci MESSAGE_HASH ⟨1, secpG⟩ ⟨1, secpG, 1, secpG⟩
        [⟨1, secpG, secpG⟩] 1 [1] := by
  refine ⟨by decide, by decide, by decide⟩

/-- On a commitment slice listing the signer set in ascending order, the
client_inner binding value agrees with the multisig one. -/
theorem gen_rho_i_ci_eq (msg : Bytes) (S : Finset Nat) (f : Nat → SigningCommitment)
    (hidx : ∀ i ∈ S, (f i).index = i) (idx : Nat) :
    gen_rho_i_ci idx msg ((sortedList S).map f) = gen_rho_i idx msg ⟨S, f⟩ S := by
  have hfl : (((sortedList S).map f).flatMap fun com =>
        beBytes 8 com.index ++ compress com.d ++ compress com.e)
      = (sortedList S).flatMap (fun i => beBytes 8 i ++ compress (f i).d ++ compress (f i).e) := by
    rw [List.flatMap_map, List.flatMap_def, List.flatMap_def]
    exact congrArg List.flatten (List.map_congr_left
      (fun a ha => by rw [hidx a ((sortedList_mem S a).mp ha)]))
  rw [gen_rho_i_ci, gen_rho_i, hfl]

/-- On such a slice the client_inner binding map is defined on the signer set and
agrees with the multisig binding map. -/
theorem generate_bindings_ci_eq (msg : Bytes) (S : Finset Nat) (f : Nat → SigningCommitment)
    (hidx : ∀ i ∈ S, (f i).index = i) (idx : Nat) (hmem : idx ∈ S) :
    generate_bindings_ci msg ((sortedList S).map f) idx
      = some (gen_rho_i idx msg ⟨S, f⟩ S) := by
  have hfind : ((((sortedList S).map f).find? (fun c => c.index == idx))).isSome := by
    rw [List.find?_isSome]
    refine ⟨f idx, List.mem_map_of_mem f ((sortedList_mem S idx).mpr hmem), ?_⟩
    rw [hidx idx hmem]
    exact beq_self_eq_true idx
  obtain ⟨c, hc⟩ := Option.isSome_iff_exists.mp hfind
  rw [generate_bindings_ci, hc, Option.map_some']
  exact congrArg some (gen_rho_i_ci_eq msg S f hidx idx)

/-- On such a slice the client_inner group commitment is defined and agrees with
the multisig group commitment. -/
theorem gen_group_commitment_ci_eq (msg : Bytes) (S : Finset Nat)
    (f : Nat → SigningCommitment) (hidx : ∀ i ∈ S, (f i).index = i) (hne : S.Nonempty) :
    gen_group_commitment_ci ((sortedList S).map f)
        (generate_bindings_ci msg ((sortedList S).map f))
      = some (gen_group_commitment ⟨S, f⟩ (generate_bindings msg ⟨S, f⟩ S).val) := by
  obtain ⟨a0, ha0⟩ := hne
  have hmem0 : f a0 ∈ (sortedList S).map f :=
    List.mem_map_of_mem f ((sortedList_mem S a0).mpr ha0)
  have hnotempty : ¬ ((((sortedList S).map f).isEmpty) = true) := by
    intro h
    rw [List.isEmpty_iff.mp h] at hmem0
    exact List.not_mem_nil _ hmem0
  have hall : (((sortedList S).map f).all (fun c =>
      (generate_bindings_ci msg ((sortedList S).map f) c.index).isSome)) = true := by
    rw [List.all_eq_true]
    intro c hc
    obtain ⟨a, ha, rfl⟩ := List.mem_map.mp hc
    have haS : a ∈ S := (sortedList_mem S a).mp ha
    rw [hidx a haS, generate_bindings_ci_eq msg S f hidx a haS]
    rfl
  rw [gen_group_commitment_ci, if_neg hnotempty, if_pos hall]
  refine congrArg some ?_
  rw [gen_group_commitment, List.map_map]
  refine congrArg (fun l => List.foldl pointAdd none l) ?_
  refine List.map_congr_left (fun a ha => ?_)
  have haS : a ∈ S := (sortedList_mem S a).mp ha
  simp only [Function.comp_apply, hidx a haS, generate_bindings_ci_eq msg S f hidx a haS,
    Option.getD_some]
  rfl

/-- For signer indices below `2^32` (where the client_inner `as u32` conversion
is lossless) the slice Lagrange coefficient over the ascending enumeration
agrees with the set version. -/
theorem get_lagrange_coeff_ci_eq (own : Nat) (S : Finset Nat)
    (hbound : ∀ j ∈ S, j < 2 ^ 32) (hownlt : own < 2 ^ 32) :
    get_lagrange_coeff_ci own (sortedList S) = get_lagrange_coeff own S := by
  have hnodup : ((sortedList S).filter (fun j => j ≠ own)).Nodup :=
    ((sortedList_sorted S).nodup).filter _
  have hset : ((sortedList S).filter (fun j => j ≠ own)).toFinset = S.erase own := by
    rw [List.toFinset_filter, sortedList_toFinset]
    rw [show (S.filter fun a => decide (a ≠ own) = true) = S.filter (fun a => a ≠ own) from
      Finset.filter_congr (fun a _ => by simp)]
    exact Finset.filter_ne' S own
  have hmodown : own % 2 ^ 32 = own := Nat.mod_eq_of_lt hownlt
  have hmodj : ∀ j ∈ (sortedList S).filter (fun j => j ≠ own), j % 2 ^ 32 = j := by
    intro j hj
    exact Nat.mod_eq_of_lt (hbound j ((sortedList_mem S j).mp (List.mem_filter.mp hj).1))
  have hcden : ((sortedList S).filter (fun j => j ≠ own)).map
        (fun (j : Nat) => ((j % 2 ^ 32 : Nat) : Scalar) - ((own % 2 ^ 32 : Nat) : Scalar))
      = ((sortedList S).filter (fun j => j ≠ own)).map
        (fun (j : Nat) => (j : Scalar) - (own : Scalar)) :=
    List.map_congr_left (fun j hj => by rw [hmodj j hj, hmodown])
  have hcnum : ((sortedList S).filter (fun j => j ≠ own)).map
        (fun (j : Nat) => ((j % 2 ^ 32 : Nat) : Scalar))
      = ((sortedList S).filter (fun j => j ≠ own)).map (fun (j : Nat) => (j : Scalar)) :=
    List.map_congr_left (fun j hj => by rw [hmodj j hj])
  have hden : (((sortedList S).filter (fun j => j ≠ own)).map
        (fun (j : Nat) => (j : Scalar) - (own : Scalar))).prod = lagrangeDen own S := by
    rw [← List.prod_toFinset _ hnodup, hset, lagrangeDen]
  have hnum : (((sortedList S).filter (fun j => j ≠ own)).map
        (fun (j : Nat) => (j : Scalar))).prod = lagrangeNum own S := by
    rw [← List.prod_toFinset _ hnodup, hset, lagrangeNum]
  rw [get_lagrange_coeff_ci, get_lagrange_coeff, Scalar.invert, hcden, hcnum, hden, hnum]
  by_cases h : lagrangeDen own S = 0 <;> simp [h]

/-- Claim C2 (amended): on identical well-formed inputs — the commitment slice
enumerating the signer set in ascending order with consistent `index` fields and
all signer indices below `2^32` (the client_inner revision truncates indices to
`u32` in its Lagrange computation) — both revisions compute
`z = (d + ρ_i·e) − λ_i·x_i·challenge`, but the multisig revision builds
`challenge(Y, R, m)` while the client_inner revision builds the transposed
`challenge(R, Y, m)`; the two responses therefore agree only when
`λ_i·x_i·(challenge(Y,R,m) − challenge(R,Y,m))` vanishes, and differ in general
(see the counterexample). -/
theorem generate_local_sig_challenge_orders (msg : Bytes) (key : KeyShare)
    (nonces : SecretNoncePair) (S : Finset Nat) (f : Nat → SigningCommitment)
    (own_idx : Nat) (hidx : ∀ i ∈ S, (f i).index = i) (hown : own_idx ∈ S)
    (hbound : ∀ i ∈ S, i < 2 ^ 32) :
    generate_local_sig msg key nonces ⟨S, f⟩ own_idx S
      = (match get_lagrange_coeff own_idx S with
         | none => none
         | some lambda_i =>
            some ((nonces.d + nonces.e * (generate_bindings msg ⟨S, f⟩ S).val own_idx)
              - lambda_i * key.x_i
                * build_challenge key.y
                    (gen_group_commitment ⟨S, f⟩ (generate_bindings msg ⟨S, f⟩ S).val) msg))
    ∧ generate_local_sig_ci msg key nonces ((sortedList S).map f) own_idx (sortedList S)
      = (match get_lagrange_coeff own_idx S with
         | none => none
         | some lambda_i =>
            some ((nonces.d + nonces.e * (generate_bindings msg ⟨S, f⟩ S).val own_idx)
              - lambda_i * key.x_i
                * build_challenge
                    (gen_group_commitment ⟨S, f⟩ (generate_bindings msg ⟨S, f⟩ S).val)
                    key.y msg)) := by
  constructor
  · rw [generate_local_sig, if_pos hown]
    cases h : get_lagrange_coeff own_idx S with
    | none => rfl
    | some lambda_i => rfl
  · rw [generate_local_sig_ci,
      gen_group_commitment_ci_eq msg S f hidx ⟨own_idx, hown⟩,
      generate_bindings_ci_eq msg S f hidx own_idx hown,
      get_lagrange_coeff_ci_eq own_idx S hbound (hbound own_idx hown)]
    cases h : get_lagrange_coeff own_idx S with
    | none => rfl
    | some lambda_i => rfl

/-- Witness for C2 (amended): the single-signer instance of the counterexample. -/
theorem generate_local_sig_challenge_orders_witness :
    (∀ i ∈ ({1} : Finset Nat),
        ((fun _ => (⟨1, secpG, secpG⟩ : SigningCommitment)) i).index = i)
    ∧ generate_local_sig MESSAGE_HASH ⟨1, secpG⟩ ⟨1, secpG, 1, secpG⟩
        ⟨{1}, fun _ => ⟨1, secpG, secpG⟩⟩ 1 ({1} : Finset Nat)
      = (match get_lagrange_coeff 1 ({1} : Finset Nat) with
         | none => none
         | some lambda_i =>
            some (((⟨1, secpG, 1, secpG⟩ : SecretNoncePair).d
                + (⟨1, secpG, 1, secpG⟩ : SecretNoncePair).e
                  * (generate_bindings MESSAGE_HASH
                      ⟨{1}, fun _ => ⟨1, secpG, secpG⟩⟩ ({1} : Finset Nat)).val 1)
              - lambda_i * (⟨1, secpG⟩ : KeyShare).x_i
                * build_challenge (⟨1, secpG⟩ : KeyShare).y
                    (gen_group_commitment ⟨{1}, fun _ => ⟨1, secpG, secpG⟩⟩
                      (generate_bindings MESSAGE_HASH
                        ⟨{1}, fun _ => ⟨1, secpG, secpG⟩⟩ ({1} : Finset Nat)).val) MESSAGE_HASH)) :=
  ⟨by decide,
    (generate_local_sig_challenge_orders MESSAGE_HASH ⟨1, secpG⟩ ⟨1, secpG, 1, secpG⟩
      ({1} : Finset Nat) (fun _ => ⟨1, secpG, secpG⟩) 1 (by decide) (by decide)
      (by decide)).1⟩

/-- A panic of the loop body anywhere in the signer list aborts the traversal. -/
theorem traverseChecks_none (f : Nat → Option (Nat × Bool)) (l : List Nat) (i : Nat)
    (hmem : i ∈ l) (hf : f i = none) : traverseChecks f l = none := by
  induction l with
  | nil => cases hmem
  | cons a rest ih =>
      rw [traverseChecks]
      rcases List.mem_cons.mp hmem with rfl | hrest
      · rw [hf]
      · rw [ih hrest]
        cases f a <;> rfl

/-- Claim C10: the client_inner `aggregate_signature` indexes its vectors at
`signer_idx - 1`, so it is only defined under the precondition that every signer
index lies in `[1, length]`: an index of 0 or one beyond any of the three vector
lengths makes the run panic (`none`), while under the precondition every array
access succeeds. -/
theorem aggregate_signature_ci_index_bounds (msg : Bytes) (signer_idxs : List Nat)
    (agg_pubkey : Point) (pubkeys : List Point) (commitments : List SigningCommitment)
    (responses : List Scalar) :
    ((∃ i ∈ signer_idxs, i = 0 ∨ commitments.length < i ∨ pubkeys.length < i
        ∨ responses.length < i) →
      aggregate_signature_ci msg signer_idxs agg_pubkey pubkeys commitments responses = none)
    ∧ ((∀ i ∈ signer_idxs, 1 ≤ i ∧ i ≤ commitments.length ∧ i ≤ pubkeys.length
          ∧ i ≤ responses.length) →
        ∀ i ∈ signer_idxs, (commitments[i - 1]?).isSome ∧ (pubkeys[i - 1]?).isSome
          ∧ (responses[i - 1]?).isSome) := by
  constructor
  · rintro ⟨i, hmem, hbad⟩
    have hstep : ∀ challenge, signer_share_check_ci msg signer_idxs challenge
        pubkeys commitments responses i = none := by
      intro challenge
      rcases hbad with rfl | hlen | hlen | hlen
      · simp [signer_share_check_ci]
      · rw [signer_share_check_ci, if_neg (by omega),
          show commitments[i - 1]? = none from List.getElem?_eq_none (by omega)]
        rfl
      · rw [signer_share_check_ci, if_neg (by omega),
          show pubkeys[i - 1]? = none from List.getElem?_eq_none (by omega)]
        cases commitments[i - 1]? <;> rfl
      · rw [signer_share_check_ci, if_neg (by omega),
          show responses[i - 1]? = none from List.getElem?_eq_none (by omega)]
        cases commitments[i - 1]? <;> cases pubkeys[i - 1]? <;> rfl
    rw [aggregate_signature_ci]
    cases hgc : gen_group_commitment_ci commitments (generate_bindings_ci msg commitments) with
    | none => rfl
    | some group_commitment =>
        have ht := traverseChecks_none (signer_share_check_ci msg signer_idxs
          (build_challenge group_commitment agg_pubkey msg) pubkeys commitments responses)
          signer_idxs i hmem (hstep _)
        simp only [ht]
  · intro hpre i hmem
    obtain ⟨h1, h2, h3, h4⟩ := hpre i hmem
    refine ⟨?_, ?_, ?_⟩ <;>
      · rw [Option.isSome_iff_ne_none]
        intro hnone
        rw [List.getElem?_eq_none_iff] at hnone
        omega

/-- Witness for C10: signer index 0 makes the run panic; with the singleton
signer list `[1]` and length-1 vectors every access succeeds. -/
theorem aggregate_signature_ci_index_bounds_witness :
    aggregate_signature_ci [] [0] none [none] [⟨1, none, none⟩] [0] = none
    ∧ ((([⟨1, none, none⟩] : List SigningCommitment)[(1 : Nat) - 1]?).isSome
      ∧ (([none] : List Point)[(1 : Nat) - 1]?).isSome
      ∧ (([0] : List Scalar)[(1 : Nat) - 1]?).isSome) :=
  ⟨(aggregate_signature_ci_index_bounds [] [0] none [none] [⟨1, none, none⟩] [0]).1
      ⟨0, by decide, Or.inl rfl⟩,
    (aggregate_signature_ci_index_bounds [] [1] none [none] [⟨1, none, none⟩] [0]).2
      (by intro i hi; simp at hi; subst hi; simp) 1 (by decide)⟩
